import Mathlib

/-!
Verification of `scripts/fetch_bcv_rate.py`.

The script's pure core is embedded shallowly over `List Char`:
`normalize_number` models the Python function of the same name, and
`find_rate` models the two-tier regex search (the three keyword patterns
and the fallback number scan are hand-compiled matchers faithful to
Python `re` left-to-right, greedy-with-backtracking semantics for these
particular patterns).  Python `float` on the digits-and-dots residual
strings produced by `normalize_number` is modelled exactly over `ℚ`
(double rounding and overflow-to-infinity are outside this model; every
value the script actually handles is tiny and exact).  `main`'s control
flow is embedded with its I/O effects (the HTTP fetch, the CI
environment flag, the unverified retry) passed as explicit parameters.
-/

namespace BCV

/-- Characters kept by `re.sub(r"[^0-9.,]", "", s)`: digits, `.` and `,`. -/
def keepChar (c : Char) : Bool := c.isDigit || c = '.' || c = ','

/-- Python `str.strip()`: drop leading and trailing whitespace.  (For
`normalize_number` this step is a no-op modulo the following filter,
since every stripped character is also dropped by the filter.) -/
def pythonStrip (s : List Char) : List Char :=
  ((s.dropWhile Char.isWhitespace).reverse.dropWhile Char.isWhitespace).reverse

/-- The residual string of `normalize_number` after `s.strip()` and
`re.sub(r"[^0-9.,]", "", s)`. -/
def stripped (s : List Char) : List Char :=
  (pythonStrip s).filter keepChar

/-- `s.replace(',', '.')` applied characterwise. -/
def commaToDot (c : Char) : Char := if c = ',' then '.' else c

/-- The separator-disambiguation block of `normalize_number`
(fetch_bcv_rate.py lines 37-49):
if both `.` and `,` occur, the one whose first occurrence is earlier is
removed (`s.replace(x, '')`) and the other becomes `.`; with only `,`
present the commas become dots; otherwise `s.replace(',', '')` (a no-op,
kept for fidelity). -/
def disambiguate (s : List Char) : List Char :=
  if s.contains '.' && s.contains ',' then
    if List.indexOf '.' s < List.indexOf ',' s then
      List.map commaToDot (List.filter (fun c => c != '.') s)
    else
      List.filter (fun c => c != ',') s
  else
    if s.contains ',' && !(s.contains '.') then
      List.map commaToDot s
    else
      List.filter (fun c => c != ',') s

/-- Value of a digit string read in base 10 (empty list gives 0). -/
def digitsVal (l : List Char) : ℕ :=
  l.foldl (fun a c => 10 * a + (c.toNat - 48)) 0

/-- Python `float(s)` on the residual strings `normalize_number` builds,
which consist of digits and `.` only.  `float` succeeds exactly when the
string has at most one `.` and at least one digit (`"12"`, `"12."`,
`".5"`), and fails (`ValueError`, mapped to `none`) otherwise (`""`,
`"."`, `"1.2.3"`).  The value `ip.fp` is the exact rational
`(ip * 10 ^ |fp| + fp) / 10 ^ |fp|`. -/
def parseFloat (s : List Char) : Option ℚ :=
  if s = [] then none
  else if !(s.all (fun c => c.isDigit || c = '.')) then none
  else if 2 ≤ s.count '.' then none
  else if !(s.any Char.isDigit) then none
  else
    let ip := s.takeWhile (fun c => c != '.')
    match s.dropWhile (fun c => c != '.') with
    | [] => some (mkRat (digitsVal ip) 1)
    | _ :: fp => some (mkRat (digitsVal ip * 10 ^ fp.length + digitsVal fp) (10 ^ fp.length))

/-- `normalize_number` (fetch_bcv_rate.py lines 31-53): strip everything
but digits and separators; empty residual gives `None`; otherwise
disambiguate the separators and `float` the result, with a parse failure
also giving `None`. -/
def normalize_number (s : List Char) : Option ℚ :=
  if stripped s = [] then none
  else parseFloat (disambiguate (stripped s))

/-! ## The regex matchers of `find_rate`

Each Python pattern is compiled by hand to a matcher
`List Char → Option (List Char × List Char)` returning, for a match
anchored at the head of the input, the text of capture group 1 and the
remainder of the input after the whole match (`re` resumes scanning
there).  Scanning (`re.finditer` / `re.findall`) tries the matcher at
every position left to right. -/

/-- One character of the class `[0-9.,]` (capture group of the keyword
patterns). -/
def capChar (c : Char) : Bool := c.isDigit || c = '.' || c = ','

/-- One character of the class `[^0-9\-\n\r]` (the up-to-20-character
window between keyword and number). -/
def gapChar (c : Char) : Bool := !(c.isDigit || c = '-' || c = '\n' || c = '\r')

/-- Match a literal keyword given as the list of admissible characters at
each position (this is how `re.IGNORECASE` literals and the class `[oó]`
are compiled).  Returns the input after the keyword. -/
def matchChars : List (List Char) → List Char → Option (List Char)
  | [], rest => some rest
  | _ :: _, [] => none
  | cs :: ks, x :: rest => if cs.contains x then matchChars ks rest else none

/-- `D[oó]lar` under `re.IGNORECASE`. -/
def dolarK : List (List Char) :=
  [['D', 'd'], ['o', 'O', 'ó', 'Ó'], ['l', 'L'], ['a', 'A'], ['r', 'R']]

/-- `USD` under `re.IGNORECASE`. -/
def usdK : List (List Char) := [['U', 'u'], ['S', 's'], ['D', 'd']]

/-- `Tasa` under `re.IGNORECASE`. -/
def tasaK : List (List Char) := [['T', 't'], ['a', 'A'], ['s', 'S'], ['a', 'A']]

/-- ` de cambio` under `re.IGNORECASE` (the optional group of pattern 2). -/
def deCambioK : List (List Char) :=
  [[' '], ['d', 'D'], ['e', 'E'], [' '], ['c', 'C'], ['a', 'A'], ['m', 'M'],
   ['b', 'B'], ['i', 'I'], ['o', 'O']]

/-- `Oficial` under `re.IGNORECASE`. -/
def oficialK : List (List Char) := [['O', 'o'], ['f', 'F'], ['i', 'I'], ['c', 'C'],
   ['i', 'I'], ['a', 'A'], ['l', 'L']]

/-- The capture group `([0-9\.,]+)`: greedy, at least one character.
Nothing follows it in the patterns, so it takes the maximal `capChar`
run. -/
def tryCapture (l : List Char) : Option (List Char × List Char) :=
  match l with
  | [] => none
  | c :: _ => if capChar c then some (l.takeWhile capChar, l.dropWhile capChar) else none

/-- `[^0-9\-\n\r]{0,20}([0-9\.,]+)` with Python's greedy backtracking:
consume as many window characters as possible (at most `n`, initially
20), then on failure of the capture give characters back one at a time.
The window excludes digits but admits `.` and `,`, so backtracking can
land the capture on a separator the window gave back. -/
def gapThenCapture : Nat → List Char → Option (List Char × List Char)
  | 0, l => tryCapture l
  | _ + 1, [] => none
  | n + 1, c :: rest =>
    if gapChar c then
      match gapThenCapture n rest with
      | some r => some r
      | none => tryCapture (c :: rest)
    else tryCapture (c :: rest)

/-- Pattern `(?:D[oó]lar|USD)[^0-9\-\n\r]{0,20}([0-9\.,]+)` anchored at
the head of the input (alternatives tried left to right, with
backtracking between them). -/
def tryPat1At (l : List Char) : Option (List Char × List Char) :=
  (match matchChars dolarK l with
   | some rest => gapThenCapture 20 rest
   | none => none)
  <|>
  (match matchChars usdK l with
   | some rest => gapThenCapture 20 rest
   | none => none)

/-- Pattern `Tasa(?: de cambio)?[^0-9\-\n\r]{0,20}([0-9\.,]+)` anchored
at the head of the input (the optional group is greedy: tried with the
suffix first, then without). -/
def tryPat2At (l : List Char) : Option (List Char × List Char) :=
  match matchChars tasaK l with
  | none => none
  | some rest =>
    (match matchChars deCambioK rest with
     | some rest2 => gapThenCapture 20 rest2
     | none => none)
    <|> gapThenCapture 20 rest

/-- Pattern `Oficial[^0-9\-\n\r]{0,20}([0-9\.,]+)` anchored at the head
of the input. -/
def tryPat3At (l : List Char) : Option (List Char × List Char) :=
  match matchChars oficialK l with
  | some rest => gapThenCapture 20 rest
  | none => none

/-- The `(?:[.,][0-9]{3})*` part of the fallback number shape: greedily
consume separator-plus-exactly-three-digits groups, returning the
consumed prefix and the remainder.  (No backtracking is needed: whatever
follows the star in the pattern can always match the empty string.) -/
def starGroups : List Char → List Char × List Char
  | s :: a :: b :: c :: r =>
    if (s = '.' || s = ',') && a.isDigit && b.isDigit && c.isDigit then
      ((s :: a :: b :: c :: (starGroups r).1), (starGroups r).2)
    else ([], s :: a :: b :: c :: r)
  | l => ([], l)

/-- The `(?:[.,][0-9]+)?` part of the fallback number shape: a separator
followed by a maximal nonempty digit run, or nothing. -/
def fracPart : List Char → List Char × List Char
  | s :: d :: r =>
    if (s = '.' || s = ',') && d.isDigit then
      (s :: d :: r.takeWhile Char.isDigit, r.dropWhile Char.isDigit)
    else ([], s :: d :: r)
  | l => ([], l)

/-- The fallback pattern `([0-9]{1,3}(?:[.,][0-9]{3})*(?:[.,][0-9]+)?)`
anchored at the head of the input: one to three leading digits (greedy,
so at most three of the available run), then separator-grouped triples,
then an optional fractional tail. -/
def tryNumAt (l : List Char) : Option (List Char × List Char) :=
  let lead := (l.takeWhile Char.isDigit).take 3
  if lead = [] then none
  else
    some ((lead ++ (starGroups (l.drop lead.length)).1
             ++ (fracPart ((starGroups (l.drop lead.length)).2)).1),
          (fracPart ((starGroups (l.drop lead.length)).2)).2)

/-- `re.finditer` with early exit, as in the Tier-1 loops of `find_rate`:
scan left to right; at the first position where the pattern matches,
normalize the captured group; return that value if normalization
succeeds, otherwise resume scanning after the match.  The fuel is the
length of the scanned text (every match consumes at least one character,
so this fuel is never exhausted on a live scan). -/
def scanPat (tryAt : List Char → Option (List Char × List Char)) :
    Nat → List Char → Option ℚ
  | 0, _ => none
  | _ + 1, [] => none
  | n + 1, c :: rest =>
    match tryAt (c :: rest) with
    | some (cap, rem) =>
      match normalize_number cap with
      | some v => some v
      | none => scanPat tryAt n rem
    | none => scanPat tryAt n rest

/-- The full non-overlapping match list of a pattern, in document order —
the list `re.finditer` (or `re.findall`, group 1) traverses. -/
def allMatches (tryAt : List Char → Option (List Char × List Char)) :
    Nat → List Char → List (List Char)
  | 0, _ => []
  | _ + 1, [] => []
  | n + 1, c :: rest =>
    match tryAt (c :: rest) with
    | some (cap, rem) => cap :: allMatches tryAt n rem
    | none => allMatches tryAt n rest

/-- The three keyword matchers of `find_rate`, in the priority order of
the Python `patterns` list. -/
def patterns : List (List Char → Option (List Char × List Char)) :=
  [tryPat1At, tryPat2At, tryPat3At]

/-- The fallback tier of `find_rate` (lines 69-78): collect all matches
of the generic number shape, normalize each, keep the values that are
neither `None` nor `≤ 1`, and return the last survivor if any. -/
def tier2 (text : List Char) : Option ℚ :=
  ((((allMatches tryNumAt text.length text).filterMap normalize_number).filter
      (fun v => decide (1 < v))).getLast?)

/-- `find_rate` (fetch_bcv_rate.py lines 56-78): try the keyword patterns
in order, each with its early-exit scan; the first normalizable capture
wins; otherwise fall back to the generic number scan. -/
def find_rate (text : List Char) : Option ℚ :=
  match patterns.findSome? (fun p => scanPat p text.length text) with
  | some v => some v
  | none => tier2 text

/-! ## `main` (fetch_bcv_rate.py lines 81-134)

The effectful steps are passed as parameters: the outcome of the first
`requests.get` (with the HTML already flattened to text, as
`soup.get_text(" ", strip=True)` does), the CI environment flag
(`GITHUB_ACTIONS == "true" or CI == "true"`), and — for the unverified
retry taken on an SSL error in CI — the retry's outcome (`some text` if
the second `requests.get` plus `raise_for_status` succeeds, `none` if it
raises). -/

/-- Outcome of the first `requests.get(URL, ...)` together with
`resp.raise_for_status()`. -/
inductive FetchOutcome
  | ok (text : List Char)
  | sslError
  | otherError

/-- How a run of the script terminates: a normal return after writing
`tasa.json` with the given rate, or `sys.exit` with the given code. -/
inductive RunResult
  | success (rate : ℚ)
  | exit (code : ℕ)

/-- The tail of `main` after a successful fetch: extract the rate,
`sys.exit(2)` if it is missing, otherwise write the record and return
(process exit status 0). -/
def afterFetch (text : List Char) : RunResult :=
  match find_rate text with
  | none => RunResult.exit 2
  | some r => RunResult.success r

/-- The control flow of `main`: a non-SSL fetch failure exits 1; an SSL
failure outside CI exits 1; an SSL failure in CI retries unverified,
exiting 1 if the retry also fails; any successfully fetched text goes to
`find_rate`. -/
def main (first : FetchOutcome) (isCI : Bool) (retry : Option (List Char)) : RunResult :=
  match first with
  | FetchOutcome.ok text => afterFetch text
  | FetchOutcome.otherError => RunResult.exit 1
  | FetchOutcome.sslError =>
    if isCI then
      match retry with
      | some text => afterFetch text
      | none => RunResult.exit 1
    else RunResult.exit 1

/-! ## Spec-side definitions (for refinement statements) -/

/-- Modelled from the spec's words for the both-separators case: "the
separator that occurs earlier in the string is treated as the thousands
separator and removed; the later one is treated as the decimal separator
and converted to `.`".  To be compared with `disambiguate`. -/
def specEarlierSepRule (t : List Char) : List Char :=
  let thous : Char := if List.indexOf '.' t < List.indexOf ',' t then '.' else ','
  let dec : Char := if List.indexOf '.' t < List.indexOf ',' t then ',' else '.'
  List.map (fun c => if c = dec then '.' else c) (List.filter (fun c => c != thous) t)

/-- Exchange the two separator characters, leaving everything else fixed
(the transposition of claim C6). -/
def swapSep (c : Char) : Char :=
  if c = '.' then ',' else if c = ',' then '.' else c

def exBoth1 : List Char := ("1.234,56").toList
def exBoth2 : List Char := ("1,234.56").toList
def exInt : List Char := ("1234").toList
def exAbc : List Char := ("abc").toList

def exTier1 : List Char := ("Dólar hoy: 36,50 puntos").toList
def exTier2 : List Char := ("... 12 items, 2024, 55,12 referencia").toList
def exYear : List Char := ("2024").toList
def exSmall : List Char := ("USD 0,5").toList
def exNoNum : List Char := ("hola mundo").toList

/-! ## Helper lemmas -/

/-- The early-exit scan of a pattern returns exactly the first
normalizable capture of the pattern's full match list. -/
theorem scanPat_eq_findSome (t : List Char → Option (List Char × List Char)) :
    ∀ (n : Nat) (l : List Char),
      scanPat t n l = List.findSome? normalize_number (allMatches t n l) := by
  intro n
  induction n with
  | zero => intro l; rfl
  | succ n ih =>
    intro l
    cases l with
    | nil => rfl
    | cons c rest =>
      simp only [scanPat, allMatches]
      cases h : t (c :: rest) with
      | none => simpa using ih rest
      | some pr =>
        simp only [List.findSome?_cons]
        cases hn : normalize_number pr.1 with
        | none => simpa [hn] using ih pr.2
        | some v => simp [hn]

theorem swapSep_beq_dot (c : Char) : (swapSep c == '.') = (c == ',') := by
  by_cases h1 : c = '.'
  · subst h1; decide
  · by_cases h2 : c = ','
    · subst h2; decide
    · rw [show swapSep c = c by simp [swapSep, h1, h2]]
      rw [beq_eq_false_iff_ne.mpr h1, beq_eq_false_iff_ne.mpr h2]

theorem swapSep_beq_comma (c : Char) : (swapSep c == ',') = (c == '.') := by
  by_cases h1 : c = '.'
  · subst h1; decide
  · by_cases h2 : c = ','
    · subst h2; decide
    · rw [show swapSep c = c by simp [swapSep, h1, h2]]
      rw [beq_eq_false_iff_ne.mpr h1, beq_eq_false_iff_ne.mpr h2]

theorem dot_beq_swapSep (c : Char) : ('.' == swapSep c) = (',' == c) := by
  by_cases h1 : c = '.'
  · subst h1; decide
  · by_cases h2 : c = ','
    · subst h2; decide
    · rw [show swapSep c = c by simp [swapSep, h1, h2]]
      rw [beq_eq_false_iff_ne.mpr (fun h => h1 h.symm),
        beq_eq_false_iff_ne.mpr (fun h => h2 h.symm)]

theorem comma_beq_swapSep (c : Char) : (',' == swapSep c) = ('.' == c) := by
  by_cases h1 : c = '.'
  · subst h1; decide
  · by_cases h2 : c = ','
    · subst h2; decide
    · rw [show swapSep c = c by simp [swapSep, h1, h2]]
      rw [beq_eq_false_iff_ne.mpr (fun h => h1 h.symm),
        beq_eq_false_iff_ne.mpr (fun h => h2 h.symm)]

theorem isWhitespace_swapSep (c : Char) : (swapSep c).isWhitespace = c.isWhitespace := by
  by_cases h1 : c = '.'
  · subst h1; decide
  · by_cases h2 : c = ','
    · subst h2; decide
    · rw [show swapSep c = c by simp [swapSep, h1, h2]]

theorem keepChar_swapSep (c : Char) : keepChar (swapSep c) = keepChar c := by
  by_cases h1 : c = '.'
  · subst h1; decide
  · by_cases h2 : c = ','
    · subst h2; decide
    · rw [show swapSep c = c by simp [swapSep, h1, h2]]

theorem dropWhile_ws_map_swapSep : ∀ l : List Char,
    List.dropWhile Char.isWhitespace (List.map swapSep l)
      = List.map swapSep (List.dropWhile Char.isWhitespace l) := by
  intro l
  induction l with
  | nil => rfl
  | cons c rest ih =>
    simp only [List.map_cons, List.dropWhile_cons, isWhitespace_swapSep]
    by_cases h : c.isWhitespace = true
    · simp [h, ih]
    · simp [h]

theorem filter_keep_map_swapSep : ∀ l : List Char,
    List.filter keepChar (List.map swapSep l)
      = List.map swapSep (List.filter keepChar l) := by
  intro l
  induction l with
  | nil => rfl
  | cons c rest ih =>
    simp only [List.map_cons, List.filter_cons, keepChar_swapSep]
    by_cases h : keepChar c = true
    · simp [h, ih]
    · simp [h, ih]

theorem pythonStrip_map_swapSep (s : List Char) :
    pythonStrip (List.map swapSep s) = List.map swapSep (pythonStrip s) := by
  unfold pythonStrip
  rw [dropWhile_ws_map_swapSep, ← List.map_reverse, dropWhile_ws_map_swapSep,
    ← List.map_reverse]

theorem stripped_map_swapSep (s : List Char) :
    stripped (List.map swapSep s) = List.map swapSep (stripped s) := by
  unfold stripped
  rw [pythonStrip_map_swapSep, filter_keep_map_swapSep]

theorem contains_dot_map_swapSep : ∀ t : List Char,
    (List.map swapSep t).contains '.' = t.contains ',' := by
  intro t
  induction t with
  | nil => rfl
  | cons c rest ih => simp only [List.map_cons, List.contains_cons, dot_beq_swapSep, ih]

theorem contains_comma_map_swapSep : ∀ t : List Char,
    (List.map swapSep t).contains ',' = t.contains '.' := by
  intro t
  induction t with
  | nil => rfl
  | cons c rest ih => simp only [List.map_cons, List.contains_cons, comma_beq_swapSep, ih]

theorem indexOf_dot_map_swapSep : ∀ t : List Char,
    List.indexOf '.' (List.map swapSep t) = List.indexOf ',' t := by
  intro t
  induction t with
  | nil => rfl
  | cons c rest ih => simp only [List.map_cons, List.indexOf_cons, swapSep_beq_dot, ih]

theorem indexOf_comma_map_swapSep : ∀ t : List Char,
    List.indexOf ',' (List.map swapSep t) = List.indexOf '.' t := by
  intro t
  induction t with
  | nil => rfl
  | cons c rest ih => simp only [List.map_cons, List.indexOf_cons, swapSep_beq_comma, ih]

theorem indexOf_dot_ne_comma : ∀ t : List Char, t.contains '.' = true →
    t.contains ',' = true → List.indexOf '.' t ≠ List.indexOf ',' t := by
  intro t
  induction t with
  | nil => intro h; simp at h
  | cons c rest ih =>
    intro hd hc
    by_cases h1 : c = '.'
    · subst h1
      rw [List.indexOf_cons, List.indexOf_cons]
      simp only [show (('.' : Char) == '.') = true from rfl,
        show (('.' : Char) == ',') = false from rfl, cond_true, cond_false]
      omega
    · by_cases h2 : c = ','
      · subst h2
        rw [List.indexOf_cons, List.indexOf_cons]
        simp only [show ((',' : Char) == ',') = true from rfl,
          show ((',' : Char) == '.') = false from rfl, cond_true, cond_false]
        omega
      · rw [List.contains_cons] at hd hc
        rw [beq_eq_false_iff_ne.mpr (fun h => h1 h.symm)] at hd
        rw [beq_eq_false_iff_ne.mpr (fun h => h2 h.symm)] at hc
        simp only [Bool.false_or] at hd hc
        rw [List.indexOf_cons, List.indexOf_cons]
        rw [beq_eq_false_iff_ne.mpr h1, beq_eq_false_iff_ne.mpr h2]
        simp only [cond_false]
        have := ih hd hc
        omega

theorem swapSep_eq_commaToDot_of_ne_dot (c : Char) (h : c ≠ '.') :
    swapSep c = commaToDot c := by
  by_cases h2 : c = ','
  · subst h2; rfl
  · simp [swapSep, commaToDot, h, h2]

theorem commaToDot_swapSep_of_ne_comma (c : Char) (h : c ≠ ',') :
    commaToDot (swapSep c) = c := by
  by_cases h1 : c = '.'
  · subst h1; rfl
  · simp [swapSep, commaToDot, h, h1]

theorem filterComma_map_swapSep : ∀ t : List Char,
    List.filter (fun c => c != ',') (List.map swapSep t)
      = List.map commaToDot (List.filter (fun c => c != '.') t) := by
  intro t
  induction t with
  | nil => rfl
  | cons c rest ih =>
    simp only [List.map_cons, List.filter_cons]
    by_cases h1 : c = '.'
    · subst h1
      simp only [show ((swapSep '.') != ',') = false from rfl,
        show (('.' : Char) != '.') = false from rfl]
      simpa using ih
    · have hk : (swapSep c != ',') = true := by
        simp only [bne, swapSep_beq_comma, beq_eq_false_iff_ne.mpr h1, Bool.not_false]
      have hk2 : (c != '.') = true := by
        simp only [bne, beq_eq_false_iff_ne.mpr h1, Bool.not_false]
      rw [if_pos hk, if_pos hk2, List.map_cons, ih,
        swapSep_eq_commaToDot_of_ne_dot c h1]

theorem mapComma_filterDot_map_swapSep : ∀ t : List Char,
    List.map commaToDot (List.filter (fun c => c != '.') (List.map swapSep t))
      = List.filter (fun c => c != ',') t := by
  intro t
  induction t with
  | nil => rfl
  | cons c rest ih =>
    simp only [List.map_cons, List.filter_cons]
    by_cases h2 : c = ','
    · subst h2
      simp only [show ((swapSep ',') != '.') = false from rfl,
        show ((',' : Char) != ',') = false from rfl]
      simpa using ih
    · have hk : (swapSep c != '.') = true := by
        simp only [bne, swapSep_beq_dot, beq_eq_false_iff_ne.mpr h2, Bool.not_false]
      have hk2 : (c != ',') = true := by
        simp only [bne, beq_eq_false_iff_ne.mpr h2, Bool.not_false]
      rw [if_pos hk, if_pos hk2, List.map_cons, ih,
        commaToDot_swapSep_of_ne_comma c h2]

theorem disambiguate_map_swapSep (t : List Char)
    (hd : t.contains '.' = true) (hc : t.contains ',' = true) :
    disambiguate (List.map swapSep t) = disambiguate t := by
  have hd' : (List.map swapSep t).contains '.' = true := by
    rw [contains_dot_map_swapSep, hc]
  have hc' : (List.map swapSep t).contains ',' = true := by
    rw [contains_comma_map_swapSep, hd]
  have hne : List.indexOf '.' t ≠ List.indexOf ',' t := indexOf_dot_ne_comma t hd hc
  unfold disambiguate
  rw [hd, hc, hd', hc', indexOf_dot_map_swapSep, indexOf_comma_map_swapSep]
  simp only [Bool.and_self, if_true]
  by_cases hlt : List.indexOf '.' t < List.indexOf ',' t
  · rw [if_pos hlt, if_neg (by omega)]
    exact filterComma_map_swapSep t
  · have hgt : List.indexOf ',' t < List.indexOf '.' t := by omega
    rw [if_pos hgt, if_neg hlt]
    exact mapComma_filterDot_map_swapSep t

theorem ne_nil_of_contains {l : List Char} {a : Char} (h : l.contains a = true) :
    l ≠ [] := by
  intro he
  subst he
  simp at h

theorem map_ifdot_id : ∀ l : List Char,
    List.map (fun c => if c = '.' then '.' else c) l = l := by
  intro l
  induction l with
  | nil => rfl
  | cons c rest ih =>
    rw [List.map_cons, ih]
    by_cases h : c = '.'
    · subst h; rfl
    · rw [if_neg h]

theorem filter_ne_comma_eq_self (t : List Char) (hc : t.contains ',' = false) :
    List.filter (fun c => c != ',') t = t := by
  apply List.filter_eq_self.mpr
  intro a ha
  have : a ≠ ',' := by
    intro he
    subst he
    rw [show t.contains ',' = List.elem ',' t from rfl, List.elem_iff.mpr ha] at hc
    exact Bool.noConfusion hc
  simp only [bne, beq_eq_false_iff_ne.mpr this, Bool.not_false]

/-! ## The claims -/

/-- C1: when the stripped string holds both `.` and `,`, `normalize_number`
removes every occurrence of the separator whose first occurrence is
earlier and turns every occurrence of the other into `.`, then parses the
result; in particular `normalize("1.234,56") = normalize("1,234.56") =
1234.56`. -/
theorem claim_C1_both_separators :
    (∀ s : List Char, (stripped s).contains '.' = true →
      (stripped s).contains ',' = true →
      normalize_number s = parseFloat (specEarlierSepRule (stripped s)))
    ∧ normalize_number exBoth1 = some (mkRat 123456 100)
    ∧ normalize_number exBoth2 = some (mkRat 123456 100) := by
  refine ⟨?_, by decide, by decide⟩
  intro s hd hc
  have hne : stripped s ≠ [] := ne_nil_of_contains hd
  unfold normalize_number
  rw [if_neg hne]
  congr 1
  unfold disambiguate specEarlierSepRule
  rw [hd, hc]
  simp only [Bool.and_self, if_true]
  by_cases hlt : List.indexOf '.' (stripped s) < List.indexOf ',' (stripped s)
  · simp only [if_pos hlt]
    rfl
  · simp only [if_neg hlt]
    exact (map_ifdot_id _).symm

/-- Witness for C1 at the concrete input `"1.234,56"`. -/
theorem claim_C1_both_separators_witness :
    normalize_number exBoth1 = parseFloat (specEarlierSepRule (stripped exBoth1)) :=
  claim_C1_both_separators.1 exBoth1 (by decide) (by decide)

/-- C2: `find_rate` consults the keyword patterns in their fixed priority
order, traverses each pattern's matches in document order and returns the
first capture that normalizes (the `Option` early exit makes later
patterns and later matches unreachable once one succeeds); on
`"Dólar hoy: 36,50 puntos"` it returns `36.5` from the first (Dólar/USD)
pattern. -/
theorem claim_C2_tier1_priority :
    (∀ text : List Char, find_rate text =
      (List.findSome? normalize_number (allMatches tryPat1At text.length text)
        <|> List.findSome? normalize_number (allMatches tryPat2At text.length text)
        <|> List.findSome? normalize_number (allMatches tryPat3At text.length text)
        <|> tier2 text))
    ∧ find_rate exTier1 = some (mkRat 365 10)
    ∧ List.findSome? normalize_number (allMatches tryPat1At exTier1.length exTier1)
        = some (mkRat 365 10) := by
  refine ⟨?_, by decide, by decide⟩
  intro text
  unfold find_rate
  simp only [patterns, List.findSome?_cons, List.findSome?_nil, scanPat_eq_findSome]
  cases h1 : List.findSome? normalize_number (allMatches tryPat1At text.length text) with
  | some v => simp
  | none =>
    cases h2 : List.findSome? normalize_number (allMatches tryPat2At text.length text) with
    | some v => simp
    | none =>
      cases h3 : List.findSome? normalize_number (allMatches tryPat3At text.length text) with
      | some v => simp
      | none => simp

/-- C3: when no Tier-1 capture normalizes, `find_rate` returns the last
candidate of the fallback scan that is neither `None` nor `≤ 1`; on
`"... 12 items, 2024, 55,12 referencia"` the surviving candidates are
`[12, 202, 4, 55.12]` and the result is `55.12`. -/
theorem claim_C3_tier2_last_candidate :
    (∀ text : List Char,
      List.findSome? normalize_number (allMatches tryPat1At text.length text) = none →
      List.findSome? normalize_number (allMatches tryPat2At text.length text) = none →
      List.findSome? normalize_number (allMatches tryPat3At text.length text) = none →
      find_rate text =
        (((allMatches tryNumAt text.length text).filterMap normalize_number).filter
          (fun v => decide (1 < v))).getLast?)
    ∧ find_rate exTier2 = some (mkRat 5512 100)
    ∧ ((allMatches tryNumAt exTier2.length exTier2).filterMap normalize_number).filter
        (fun v => decide (1 < v)) = [(12 : ℚ), (202 : ℚ), (4 : ℚ), mkRat 5512 100] := by
  refine ⟨?_, by decide, by decide⟩
  intro text h1 h2 h3
  unfold find_rate
  simp only [patterns, List.findSome?_cons, List.findSome?_nil, scanPat_eq_findSome,
    h1, h2, h3]
  rfl

/-- Witness for C3 at the concrete input
`"... 12 items, 2024, 55,12 referencia"`. -/
theorem claim_C3_tier2_last_candidate_witness :
    find_rate exTier2 =
      (((allMatches tryNumAt exTier2.length exTier2).filterMap normalize_number).filter
        (fun v => decide (1 < v))).getLast? :=
  claim_C3_tier2_last_candidate.1 exTier2 (by decide) (by decide) (by decide)

/-- C4 as stated is false: on `"USD 0,5"` the Tier-1 keyword search
selects `0.5`, which is not greater than `1`. -/
theorem claim_C4_counterexample :
    find_rate exSmall = some (mkRat 1 2) ∧ ¬ ((1 : ℚ) < mkRat 1 2) :=
  ⟨by decide, by decide⟩

/-- C4 amended: the `> 1` invariant holds for a selected rate only when it
comes from the Tier-2 fallback scan (Tier 1 having yielded nothing); a
Tier-1 keyword match can select any normalizable value, including values
`≤ 1`. -/
theorem claim_C4_amended (text : List Char) (v : ℚ)
    (h1 : List.findSome? (fun p => scanPat p text.length text) patterns = none)
    (h2 : find_rate text = some v) : 1 < v := by
  unfold find_rate at h2
  rw [h1] at h2
  unfold tier2 at h2
  have hmem := List.mem_of_mem_getLast? (Option.mem_def.mpr h2)
  exact of_decide_eq_true (List.mem_filter.mp hmem).2

/-- Witness for the amended C4 at the concrete input `"2024"`, whose rate
`4` comes from the fallback scan. -/
theorem claim_C4_amended_witness : (1 : ℚ) < 4 :=
  claim_C4_amended exYear 4 (by decide) (by decide)

/-- C5: with only `,` present after stripping, `normalize_number` turns
the commas into dots before parsing; with no `,` present it parses the
stripped string as-is; in particular `normalize("1234") = 1234.0`. -/
theorem claim_C5_single_separator :
    (∀ s : List Char, (stripped s).contains ',' = true →
      (stripped s).contains '.' = false →
      normalize_number s = parseFloat (List.map commaToDot (stripped s)))
    ∧ (∀ s : List Char, (stripped s).contains ',' = false →
      normalize_number s = parseFloat (stripped s))
    ∧ normalize_number exInt = some (1234 : ℚ) := by
  refine ⟨?_, ?_, by decide⟩
  · intro s hc hd
    have hne : stripped s ≠ [] := ne_nil_of_contains hc
    unfold normalize_number
    rw [if_neg hne]
    congr 1
    unfold disambiguate
    rw [hd, hc]
    simp
  · intro s hc
    by_cases hnil : stripped s = []
    · unfold normalize_number
      rw [if_pos hnil, hnil]
      rfl
    · unfold normalize_number
      rw [if_neg hnil]
      congr 1
      unfold disambiguate
      rw [hc]
      simp only [Bool.and_false, Bool.false_and, if_false]
      exact filter_ne_comma_eq_self _ hc

/-- Witness for C5 at the concrete inputs `"36,50"` (comma only) and
`"1234"` (no separator). -/
theorem claim_C5_single_separator_witness :
    normalize_number (("36,50").toList)
        = parseFloat (List.map commaToDot (stripped (("36,50").toList)))
    ∧ normalize_number exInt = parseFloat (stripped exInt) :=
  ⟨claim_C5_single_separator.1 (("36,50").toList) (by decide) (by decide),
   claim_C5_single_separator.2.1 exInt (by decide)⟩

/-- C6: for a string whose stripped form holds both separators,
normalization is invariant under exchanging the roles of `.` and `,`
throughout the string. -/
theorem claim_C6_separator_symmetry (s : List Char)
    (hd : (stripped s).contains '.' = true)
    (hc : (stripped s).contains ',' = true) :
    normalize_number (List.map swapSep s) = normalize_number s := by
  unfold normalize_number
  rw [stripped_map_swapSep]
  have hne : stripped s ≠ [] := ne_nil_of_contains hd
  have hne' : List.map swapSep (stripped s) ≠ [] := by
    intro h
    exact hne (List.map_eq_nil_iff.mp h)
  rw [if_neg hne', if_neg hne, disambiguate_map_swapSep _ hd hc]

/-- Witness for C6 at the concrete input `"1.234,56"` (whose swap is
`"1,234.56"`). -/
theorem claim_C6_separator_symmetry_witness :
    normalize_number (List.map swapSep exBoth1) = normalize_number exBoth1 :=
  claim_C6_separator_symmetry exBoth1 (by decide) (by decide)

/-- C7: `normalize_number` yields `none` (it is total, so it can signal
failure in no other way) exactly when the stripped string is empty or the
disambiguated residual fails to parse as a float; in particular
`normalize("abc") = none`. -/
theorem claim_C7_none_cases :
    (∀ s : List Char, (normalize_number s = none ↔
      stripped s = [] ∨ parseFloat (disambiguate (stripped s)) = none))
    ∧ normalize_number exAbc = none := by
  refine ⟨?_, by decide⟩
  intro s
  unfold normalize_number
  by_cases h : stripped s = []
  · simp [h]
  · simp [h]

/-- C8: when no Tier-1 match normalizes and every Tier-2 candidate is
discarded by the `None`-or-`≤ 1` filter, `find_rate` returns `none`; in
particular it does so on text with no numbers at all. -/
theorem claim_C8_not_found :
    (∀ text : List Char,
      (∀ cap ∈ allMatches tryPat1At text.length text, normalize_number cap = none) →
      (∀ cap ∈ allMatches tryPat2At text.length text, normalize_number cap = none) →
      (∀ cap ∈ allMatches tryPat3At text.length text, normalize_number cap = none) →
      ((allMatches tryNumAt text.length text).filterMap normalize_number).filter
        (fun v => decide (1 < v)) = [] →
      find_rate text = none)
    ∧ find_rate exNoNum = none := by
  refine ⟨?_, by decide⟩
  intro text h1 h2 h3 h4
  unfold find_rate
  simp only [patterns, List.findSome?_cons, List.findSome?_nil, scanPat_eq_findSome,
    List.findSome?_eq_none_iff.mpr h1, List.findSome?_eq_none_iff.mpr h2,
    List.findSome?_eq_none_iff.mpr h3]
  unfold tier2
  rw [h4]
  rfl

/-- Witness for C8 at the concrete input `"hola mundo"`. -/
theorem claim_C8_not_found_witness : find_rate exNoNum = none :=
  claim_C8_not_found.1 exNoNum (by decide) (by decide) (by decide) (by decide)

/-- C9: the run's three outcomes are pairwise distinguishable: any
network failure without a usable CI fallback exits with code 1, a missing
rate after a successful fetch (also via the CI retry) exits with code 2,
and a found rate gives a normal (success) termination. -/
theorem claim_C9_exit_codes :
    (∀ (ci : Bool) (retry : Option (List Char)),
      main FetchOutcome.otherError ci retry = RunResult.exit 1)
    ∧ (∀ retry : Option (List Char),
      main FetchOutcome.sslError false retry = RunResult.exit 1)
    ∧ main FetchOutcome.sslError true none = RunResult.exit 1
    ∧ (∀ (text : List Char) (ci : Bool) (retry : Option (List Char)),
        find_rate text = none →
        main (FetchOutcome.ok text) ci retry = RunResult.exit 2)
    ∧ (∀ text : List Char, find_rate text = none →
        main FetchOutcome.sslError true (some text) = RunResult.exit 2)
    ∧ (∀ (text : List Char) (v : ℚ) (ci : Bool) (retry : Option (List Char)),
        find_rate text = some v →
        main (FetchOutcome.ok text) ci retry = RunResult.success v)
    ∧ RunResult.exit 1 ≠ RunResult.exit 2
    ∧ (∀ v : ℚ, RunResult.success v ≠ RunResult.exit 1)
    ∧ (∀ v : ℚ, RunResult.success v ≠ RunResult.exit 2) := by
  refine ⟨fun ci r => rfl, fun r => rfl, rfl, ?_, ?_, ?_, by simp, by simp, by simp⟩
  · intro text ci r h
    simp [main, afterFetch, h]
  · intro text h
    simp [main, afterFetch, h]
  · intro text v ci r h
    simp [main, afterFetch, h]

/-- Witness for C9: with no rate in the fetched text the run exits with
code 2. -/
theorem claim_C9_exit_codes_witness :
    main (FetchOutcome.ok exNoNum) false none = RunResult.exit 2 :=
  claim_C9_exit_codes.2.2.2.1 exNoNum false none (by decide)

/-- C10: on keyword-free text consisting of the digit run `"2024"`, the
fallback shape fragments it into the matches `"202"` and `"4"`, both
candidates survive the `> 1` filter, and `find_rate` returns the last
one, `4`. -/
theorem claim_C10_digit_run_fragmentation :
    allMatches tryNumAt exYear.length exYear = [("202").toList, ("4").toList]
    ∧ ((allMatches tryNumAt exYear.length exYear).filterMap normalize_number).filter
        (fun v => decide (1 < v)) = [(202 : ℚ), (4 : ℚ)]
    ∧ List.findSome? (fun p => scanPat p exYear.length exYear) patterns = none
    ∧ find_rate exYear = some (4 : ℚ) :=
  ⟨by decide, by decide, by decide, by decide⟩

end BCV
